import Mathlib

/-!
Verification of the AI-ContentManager video pipeline core.

This file gives a shallow embedding, in Lean 4, of the parts of the
repository that the specification talks about:

* the timing calculator
  (src/contentmanager/core/content/video_pipeline/ffmpeg_renderer.py,
  FFmpegRenderer._calculate_line_timings, and the identical
  LipSyncRenderer._calculate_line_timings),
* the drawtext escaping and greedy word wrap helpers,
* the speaking-condition expression and the filter-graph / command builder,
* the repository layer for video projects (update_status, approve_project)
  and the reject / render router actions,
* AssetManager.delete_asset.

Python strings are modelled as List Char, Python floats as rationals, the
database session as a function from ids to optional rows, and the file
system as a record of an existence predicate and a resolve function.
Fallible Python code (division by zero, raised ValueError) is modelled
with Except.
-/

/-- CharacterRole enum from video_pipeline/models.py. -/
inductive CharacterRole
  | questioner
  | explainer
deriving DecidableEq, Repr

/-- The .value attribute of the CharacterRole str-enum
("questioner" and "explainer"). -/
def CharacterRole.value : CharacterRole → List Char
  | .questioner => ['q', 'u', 'e', 's', 't', 'i', 'o', 'n', 'e', 'r']
  | .explainer => ['e', 'x', 'p', 'l', 'a', 'i', 'n', 'e', 'r']

/-- ContextStyle enum from video_pipeline/models.py. -/
inductive ContextStyle
  | motivation
  | finance
  | tech
  | educational
deriving DecidableEq, Repr

/-- DialogueLine pydantic model from video_pipeline/models.py. -/
structure DialogueLine where
  speaker_role : CharacterRole
  speaker_name : List Char
  line : List Char
  pose : List Char
  scene_number : Nat
deriving DecidableEq, Repr

/-- DialogueScript pydantic model from video_pipeline/models.py. -/
structure DialogueScript where
  topic : List Char
  context_style : ContextStyle
  lines : List DialogueLine
  takeaway : List Char
  target_duration_seconds : Nat
deriving DecidableEq, Repr

/-- Python exceptions that the embedded code can raise. -/
inductive PyError
  | zeroDivisionError
  | valueError (msg : List Char)
deriving DecidableEq, Repr

/-- The expression total_chars = sum(len(line.line) for line in script.lines)
from FFmpegRenderer._calculate_line_timings (ffmpeg_renderer.py line 120). -/
def totalChars (script : DialogueScript) : Nat :=
  (script.lines.map (fun l => l.line.length)).sum

/-- The per-line loop of FFmpegRenderer._calculate_line_timings
(ffmpeg_renderer.py lines 121-132).  Python raises ZeroDivisionError the
first time the loop body divides by a zero total_chars; the successful
iteration produces (start_time, end_time, speaker_role.value) and advances
current_time. -/
def timingsLoop (total_chars : Nat) (total_duration : ℚ) :
    List DialogueLine → ℚ → Except PyError (List (ℚ × ℚ × List Char))
  | [], _ => .ok []
  | l :: rest, current_time =>
    if total_chars = 0 then .error .zeroDivisionError
    else
      let line_duration := ((l.line.length : ℚ) / (total_chars : ℚ)) * total_duration
      let end_time := current_time + line_duration
      (timingsLoop total_chars total_duration rest end_time).map
        (fun ts => (current_time, end_time, l.speaker_role.value) :: ts)

/-- FFmpegRenderer._calculate_line_timings (ffmpeg_renderer.py lines 95-132),
with the measured total duration (obtained there by probing the voiceover
file) passed in as a parameter.  LipSyncRenderer._calculate_line_timings
(lipsync_renderer.py lines 75-82) is the same computation. -/
def calculate_line_timings (script : DialogueScript) (total_duration : ℚ) :
    Except PyError (List (ℚ × ℚ × List Char)) :=
  timingsLoop (totalChars script) total_duration script.lines 0

/-- chainedFrom a ws b means: the windows ws are contiguous, the first one
starts at a, each later window starts where the previous ended, and the
last one ends at b (for ws = [] this degenerates to a = b). -/
def chainedFrom : ℚ → List (ℚ × ℚ × List Char) → ℚ → Prop
  | a, [], b => a = b
  | a, w :: rest, b => w.1 = a ∧ chainedFrom w.2.1 rest b

lemma timingsLoop_ok (tc : Nat) (htc : tc ≠ 0) (D : ℚ) :
    ∀ (ls : List DialogueLine) (cur : ℚ),
      ∃ ts, timingsLoop tc D ls cur = .ok ts ∧
        chainedFrom cur ts
          (cur + (((ls.map (fun l => l.line.length)).sum : ℚ) / (tc : ℚ)) * D) ∧
        ts.map (fun w => w.2.2) = ls.map (fun l => l.speaker_role.value) ∧
        (0 ≤ D → ∀ w ∈ ts, w.1 ≤ w.2.1) := by
  intro ls
  induction ls with
  | nil =>
    intro cur
    refine ⟨[], rfl, ?_, rfl, fun _ w hw => absurd hw (List.not_mem_nil w)⟩
    simp [chainedFrom]
  | cons l rest ih =>
    intro cur
    obtain ⟨ts, hts, hch, hmap, hnn⟩ := ih (cur + ((l.line.length : ℚ) / (tc : ℚ)) * D)
    refine ⟨(cur, cur + ((l.line.length : ℚ) / (tc : ℚ)) * D, l.speaker_role.value) :: ts,
      ?_, ?_, ?_, ?_⟩
    · simp [timingsLoop, htc, hts, Except.map]
    · refine ⟨rfl, ?_⟩
      have harith : (cur + ((l.line.length : ℚ) / (tc : ℚ)) * D) +
          (((rest.map (fun l => l.line.length)).sum : ℚ) / (tc : ℚ)) * D =
          cur + ((((l :: rest).map (fun l => l.line.length)).sum : ℚ) / (tc : ℚ)) * D := by
        push_cast [List.map_cons, List.sum_cons]
        rw [add_div, add_mul]
        ring
      rw [← harith]
      exact hch
    · simp [hmap]
    · intro hD w hw
      have hdur : (0 : ℚ) ≤ ((l.line.length : ℚ) / (tc : ℚ)) * D :=
        mul_nonneg (div_nonneg (Nat.cast_nonneg _) (Nat.cast_nonneg _)) hD
      rcases List.mem_cons.mp hw with hw | hw
      · subst hw
        simpa using hdur
      · exact hnn hD w hw

/-- C1: for every script with at least one character of text and every
total duration D ≥ 0, the timing calculator succeeds and returns one
(start, end, role) window per line in line order, the windows chain with
no gaps or overlaps from 0 to D, and every window has nonnegative width. -/
theorem c1_timing_windows_partition (script : DialogueScript) (D : ℚ)
    (hchars : 0 < totalChars script) (hD : 0 ≤ D) :
    ∃ ts, calculate_line_timings script D = .ok ts ∧
      ts.length = script.lines.length ∧
      ts.map (fun w => w.2.2) = script.lines.map (fun l => l.speaker_role.value) ∧
      chainedFrom 0 ts D ∧
      ∀ w ∈ ts, w.1 ≤ w.2.1 := by
  obtain ⟨ts, hts, hch, hmap, hnn⟩ :=
    timingsLoop_ok (totalChars script) (Nat.pos_iff_ne_zero.mp hchars) D script.lines 0
  have hcast : ((totalChars script : ℚ)) ≠ 0 :=
    Nat.cast_ne_zero.mpr (Nat.pos_iff_ne_zero.mp hchars)
  have hend : (0 : ℚ) +
      (((script.lines.map (fun l => l.line.length)).sum : ℚ) / (totalChars script : ℚ)) * D
      = D := by
    have hsum : ((script.lines.map (fun l => (l.line.length : ℚ))).sum)
        = (totalChars script : ℚ) := by
      simp [totalChars, Nat.cast_list_sum, List.map_map, Function.comp_def]
    rw [hsum, div_self hcast]
    ring
  rw [hend] at hch
  refine ⟨ts, hts, ?_, hmap, hch, hnn hD⟩
  simpa using congrArg List.length hmap

/-- The questioner line (Thabo, text Hi?) of the two-line example script. -/
def exLineHi : DialogueLine :=
  { speaker_role := .questioner
    speaker_name := ['T', 'h', 'a', 'b', 'o']
    line := ['H', 'i', '?']
    pose := ['s', 't', 'a', 'n', 'd', 'i', 'n', 'g']
    scene_number := 1 }

/-- The explainer line (Lerato, text Hello!) of the two-line example script. -/
def exLineHello : DialogueLine :=
  { speaker_role := .explainer
    speaker_name := ['L', 'e', 'r', 'a', 't', 'o']
    line := ['H', 'e', 'l', 'l', 'o', '!']
    pose := ['s', 't', 'a', 'n', 'd', 'i', 'n', 'g']
    scene_number := 2 }

/-- The example script of the specification scenario:
[(questioner, Hi?), (explainer, Hello!)]. -/
def exScript : DialogueScript :=
  { topic := ['t']
    context_style := .tech
    lines := [exLineHi, exLineHello]
    takeaway := ['t']
    target_duration_seconds := 45 }

theorem c1_timing_windows_partition_witness :
    0 < totalChars exScript ∧ (0 : ℚ) ≤ 10 ∧
      (∃ ts, calculate_line_timings exScript 10 = .ok ts ∧
        ts.length = exScript.lines.length ∧
        ts.map (fun w => w.2.2) = exScript.lines.map (fun l => l.speaker_role.value) ∧
        chainedFrom 0 ts 10 ∧
        ∀ w ∈ ts, w.1 ≤ w.2.1) :=
  ⟨by decide, by norm_num,
    c1_timing_windows_partition exScript 10 (by decide) (by norm_num)⟩

/-- C2, counterexample: on the script [(questioner, Hi?), (explainer, Hello!)]
with measured duration 10, the code does NOT return the windows
(0, 5, questioner) and (5, 10, explainer) claimed by the specification: the
two lines have text lengths 3 and 6, not equal lengths. -/
theorem c2_equal_split_counterexample :
    calculate_line_timings exScript 10 ≠
      .ok [((0 : ℚ), 5, CharacterRole.questioner.value),
           ((5 : ℚ), 10, CharacterRole.explainer.value)] := by
  norm_num [calculate_line_timings, timingsLoop, totalChars, exScript,
    exLineHi, exLineHello, Except.map]

/-- C2, amended: the 10 seconds are split proportionally to the text
lengths 3 and 6, giving the questioner window (0, 10/3, questioner) and the
explainer window (10/3, 10, explainer). -/
theorem c2_proportional_split :
    calculate_line_timings exScript 10 =
      .ok [((0 : ℚ), 10 / 3, CharacterRole.questioner.value),
           ((10 / 3 : ℚ), 10, CharacterRole.explainer.value)] := by
  norm_num [calculate_line_timings, timingsLoop, totalChars, exScript,
    exLineHi, exLineHello, Except.map, CharacterRole.value]

/-- A script whose only line has empty text, so the total text length is 0. -/
def emptyTextScript : DialogueScript :=
  { topic := []
    context_style := .tech
    lines := [{ speaker_role := .questioner
                speaker_name := ['T']
                line := []
                pose := []
                scene_number := 1 }]
    takeaway := []
    target_duration_seconds := 45 }

/-- C3: on a script with one line of empty text the timing calculation
divides len(line) by total_chars = 0 and raises ZeroDivisionError; it
neither raises a ValidationError nor returns a single zero-width window. -/
theorem c3_zero_total_chars_division_by_zero :
    calculate_line_timings emptyTextScript 10 = .error .zeroDivisionError := by
  rfl

/-- Python str.replace with a single-character needle: every occurrence of
the character c is replaced by the string repl. -/
def replaceChar (c : Char) (repl : List Char) : List Char → List Char
  | [] => []
  | a :: rest => (if a = c then repl else [a]) ++ replaceChar c repl rest

/-- FFmpegRenderer._escape_text (ffmpeg_renderer.py lines 382-389) and the
identical LipSyncRenderer._esc (lipsync_renderer.py lines 246-247): the four
chained replaces, backslash first, then single quote, then colon, then
percent. -/
def escape_text (text : List Char) : List Char :=
  replaceChar '%' ['\\', '%']
    (replaceChar ':' ['\\', ':']
      (replaceChar '\'' ['\'', '\\', '\'', '\'']
        (replaceChar '\\' ['\\', '\\'] text)))

/-- The effect of escape_text on one character: the composite of the four
substitutions (later passes never touch the characters inserted by earlier
ones). -/
def escapeChar (c : Char) : List Char :=
  if c = '\\' then ['\\', '\\']
  else if c = '\'' then ['\'', '\\', '\'', '\'']
  else if c = ':' then ['\\', ':']
  else if c = '%' then ['\\', '%']
  else [c]

/-- A decoder for the image of escape_text: a backslash takes the following
character literally, a single quote consumes the three characters of the
quote escape, anything else is copied. -/
def unescape_text : List Char → List Char
  | [] => []
  | [a] => [a]
  | a :: b :: rest =>
    if a = '\\' then b :: unescape_text rest
    else if a = '\'' then
      match rest with
      | _ :: _ :: rest2 => '\'' :: unescape_text rest2
      | rest2 => a :: unescape_text (b :: rest2)
    else a :: unescape_text (b :: rest)
termination_by l => l.length
decreasing_by
  all_goals simp_arith

lemma unescape_text_single (c : Char) : unescape_text [c] = [c] := by
  rw [unescape_text.eq_def]

lemma unescape_text_bs (b : Char) (X : List Char) :
    unescape_text ('\\' :: b :: X) = b :: unescape_text X := by
  rw [unescape_text.eq_def]
  simp

lemma unescape_text_quote (X : List Char) :
    unescape_text ('\'' :: '\\' :: '\'' :: '\'' :: X) = '\'' :: unescape_text X := by
  rw [unescape_text.eq_def]
  simp

lemma unescape_text_other (c e : Char) (E : List Char) (h1 : ¬c = '\\') (h2 : ¬c = '\'') :
    unescape_text (c :: e :: E) = c :: unescape_text (e :: E) := by
  rw [unescape_text.eq_def]
  simp [h1, h2]

lemma escapeChar_ne_nil (c : Char) : escapeChar c ≠ [] := by
  simp only [escapeChar]
  split
  · simp
  · split
    · simp
    · split
      · simp
      · split
        · simp
        · simp

lemma escape_text_cons (c : Char) (s : List Char) :
    escape_text (c :: s) = escapeChar c ++ escape_text s := by
  by_cases h1 : c = '\\'
  · subst h1; rfl
  · by_cases h2 : c = '\''
    · subst h2; rfl
    · by_cases h3 : c = ':'
      · subst h3; rfl
      · by_cases h4 : c = '%'
        · subst h4; rfl
        · simp [escape_text, escapeChar, replaceChar, h1, h2, h3, h4]

lemma unescape_escape (s : List Char) : unescape_text (escape_text s) = s := by
  induction s with
  | nil =>
    rw [show escape_text [] = [] from rfl, unescape_text.eq_def]
  | cons c s ih =>
    rw [escape_text_cons]
    by_cases h1 : c = '\\'
    · subst h1
      simpa [escapeChar, unescape_text_bs] using ih
    · by_cases h2 : c = '\''
      · subst h2
        simpa [escapeChar, unescape_text_quote] using ih
      · by_cases h3 : c = ':'
        · subst h3
          simpa [escapeChar, unescape_text_bs] using ih
        · by_cases h4 : c = '%'
          · subst h4
            simpa [escapeChar, unescape_text_bs] using ih
          · rcases hE : escape_text s with _ | ⟨e, E⟩
            · have hs : s = [] := by
                cases s with
                | nil => rfl
                | cons d s2 =>
                  rw [escape_text_cons] at hE
                  exact absurd (List.append_eq_nil.mp hE).1 (escapeChar_ne_nil d)
              subst hs
              simp [escapeChar, escape_text, replaceChar, h1, h2, h3, h4,
                unescape_text_single]
            · simp only [escapeChar, h1, h2, h3, h4, if_false, List.singleton_append]
              rw [unescape_text_other c e E h1 h2, ← hE, ih]

/-- C5: the drawtext escaping (backslash doubled first, then quote, colon
and percent escapes) is injective: the escaped output determines the
original text, so the escaping can be reversed unambiguously (the decoder
unescape_text inverts it, see unescape_escape). -/
theorem c5_escape_text_injective (s t : List Char)
    (h : escape_text s = escape_text t) : s = t := by
  rw [← unescape_escape s, ← unescape_escape t, h]

theorem c5_escape_text_injective_witness :
    (['a', '\\', ':', '%', '\''] : List Char) = ['a', '\\', ':', '%', '\''] :=
  c5_escape_text_injective ['a', '\\', ':', '%', '\''] ['a', '\\', ':', '%', '\''] rfl

/-- Python str.split() whitespace test, restricted to the common whitespace
characters (space, tab, newline, carriage return). -/
def isSpace (c : Char) : Bool :=
  c = ' ' || c = '\t' || c = '\n' || c = '\r'

lemma length_dropWhile_le (p : Char → Bool) (l : List Char) :
    (l.dropWhile p).length ≤ l.length := by
  induction l with
  | nil => simp
  | cons a l ih =>
    rw [List.dropWhile_cons]
    split
    · exact Nat.le_succ_of_le ih
    · simp

/-- Python str.split() with no separator argument (used by text.split() in
_wrap_text): split on runs of whitespace, dropping empty words. -/
def splitWords : List Char → List (List Char)
  | [] => []
  | c :: rest =>
    if isSpace c then splitWords rest
    else
      (c :: rest).takeWhile (fun x => !isSpace x) ::
        splitWords ((c :: rest).dropWhile (fun x => !isSpace x))
termination_by l => l.length
decreasing_by
  all_goals
    simp only [List.length_cons]
    first
      | omega
      | (rw [List.dropWhile_cons]
         split
         · exact Nat.lt_succ_of_le (length_dropWhile_le _ _)
         · simp_all)

/-- Python sep.join(pieces): the pieces concatenated with sep in between. -/
def joinSep (sep : List Char) : List (List Char) → List Char
  | [] => []
  | [w] => w
  | w :: ws => w ++ sep ++ joinSep sep ws

/-- The greedy loop of FFmpegRenderer._wrap_text (ffmpeg_renderer.py lines
362-378) and of the identical LipSyncRenderer._wrap: a word is added to
current_line while current_length + len(word) + 1 stays within max_chars,
otherwise the finished line (if nonempty) is emitted and a new line starts
with the word.  Lines are kept as word lists here; the source stores each
line already joined with single spaces, which wrap_lines applies below. -/
def wrapLoop (max_chars : Nat) :
    List (List Char) → List (List Char) → Nat → List (List (List Char))
  | [], current_line, _ => if current_line = [] then [] else [current_line]
  | word :: rest, current_line, current_length =>
    if current_length + word.length + 1 ≤ max_chars then
      wrapLoop max_chars rest (current_line ++ [word]) (current_length + word.length + 1)
    else
      (if current_line = [] then [] else [current_line]) ++
        wrapLoop max_chars rest [word] word.length

/-- The list of display lines built by _wrap_text: each emitted
current_line joined with single spaces. -/
def wrap_lines (text : List Char) (max_chars : Nat) : List (List Char) :=
  (wrapLoop max_chars (splitWords text) [] 0).map (joinSep [' '])

/-- FFmpegRenderer._wrap_text (ffmpeg_renderer.py lines 360-380): the
wrapped lines joined with the literal two-character backslash-n sequence
that the drawtext filter interprets as a line break. -/
def wrap_text (text : List Char) (max_chars : Nat) : List Char :=
  joinSep ['\\', 'n'] (wrap_lines text max_chars)

lemma joinSep_cons (sep : List Char) (w : List Char) (ws : List (List Char))
    (h : ws ≠ []) : joinSep sep (w :: ws) = w ++ sep ++ joinSep sep ws := by
  cases ws with
  | nil => exact absurd rfl h
  | cons w2 ws2 => rfl

lemma wrapLoop_flatten (m : Nat) :
    ∀ (ws cur : List (List Char)) (n : Nat),
      (wrapLoop m ws cur n).flatten = cur ++ ws := by
  intro ws
  induction ws with
  | nil =>
    intro cur n
    by_cases h : cur = []
    · simp [wrapLoop, h]
    · simp [wrapLoop, h]
  | cons w rest ih =>
    intro cur n
    by_cases hfit : n + w.length + 1 ≤ m
    · simp only [wrapLoop, hfit, if_true]
      rw [ih]
      simp
    · simp only [wrapLoop, hfit, if_false]
      by_cases h : cur = []
      · simp [h, ih]
      · simp only [h, if_false, List.flatten_append, List.flatten_cons]
        rw [ih]
        simp

lemma wrapLoop_line_ne_nil (m : Nat) :
    ∀ (ws cur : List (List Char)) (n : Nat) (L : List (List Char)),
      L ∈ wrapLoop m ws cur n → L ≠ [] := by
  intro ws
  induction ws with
  | nil =>
    intro cur n L hL
    by_cases h : cur = [] <;> simp_all [wrapLoop]
  | cons w rest ih =>
    intro cur n L hL
    by_cases hfit : n + w.length + 1 ≤ m
    · simp only [wrapLoop, hfit, if_true] at hL
      exact ih _ _ L hL
    · simp only [wrapLoop, hfit, if_false, List.mem_append] at hL
      rcases hL with hL | hL
      · by_cases h : cur = [] <;> simp_all
      · exact ih _ _ L hL

lemma wrapLoop_word_mem (m : Nat) (ws cur : List (List Char)) (n : Nat)
    (L : List (List Char)) (hL : L ∈ wrapLoop m ws cur n) :
    ∀ w ∈ L, w ∈ cur ∨ w ∈ ws := by
  intro w hw
  have hmem : w ∈ (wrapLoop m ws cur n).flatten :=
    List.mem_flatten.mpr ⟨L, hL, hw⟩
  rw [wrapLoop_flatten] at hmem
  exact List.mem_append.mp hmem

lemma takeWhile_word (w s : List Char) (hns : ∀ c ∈ w, isSpace c = false) :
    (w ++ ' ' :: s).takeWhile (fun x => !isSpace x) = w := by
  induction w with
  | nil => simp [List.takeWhile_cons, isSpace]
  | cons c w2 ih =>
    have hc : isSpace c = false := hns c (List.mem_cons_self c w2)
    simp only [List.cons_append, List.takeWhile_cons, hc, Bool.not_false, if_true]
    rw [ih (fun d hd => hns d (List.mem_cons_of_mem c hd))]

lemma dropWhile_word (w s : List Char) (hns : ∀ c ∈ w, isSpace c = false) :
    (w ++ ' ' :: s).dropWhile (fun x => !isSpace x) = ' ' :: s := by
  induction w with
  | nil => simp [List.dropWhile_cons, isSpace]
  | cons c w2 ih =>
    have hc : isSpace c = false := hns c (List.mem_cons_self c w2)
    simp only [List.cons_append, List.dropWhile_cons, hc, Bool.not_false, if_true]
    exact ih (fun d hd => hns d (List.mem_cons_of_mem c hd))

lemma splitWords_nil : splitWords [] = [] := by
  rw [splitWords.eq_def]

lemma splitWords_space (c : Char) (rest : List Char) (h : isSpace c = true) :
    splitWords (c :: rest) = splitWords rest := by
  rw [splitWords.eq_def]
  simp [h]

lemma splitWords_word (w s : List Char) (hw : w ≠ [])
    (hns : ∀ c ∈ w, isSpace c = false) :
    splitWords (w ++ ' ' :: s) = w :: splitWords s := by
  cases w with
  | nil => exact absurd rfl hw
  | cons c w2 =>
    have hc : isSpace c = false := hns c (List.mem_cons_self c w2)
    rw [List.cons_append, splitWords.eq_def]
    simp only [hc, Bool.false_eq_true, if_false]
    rw [← List.cons_append, takeWhile_word _ _ hns, dropWhile_word _ _ hns,
      splitWords_space ' ' s (by rfl)]

lemma splitWords_single_word (w : List Char) (hw : w ≠ [])
    (hns : ∀ c ∈ w, isSpace c = false) :
    splitWords w = [w] := by
  cases w with
  | nil => exact absurd rfl hw
  | cons c w2 =>
    have hc : isSpace c = false := hns c (List.mem_cons_self c w2)
    rw [splitWords.eq_def]
    simp only [hc, Bool.false_eq_true, if_false]
    have htake : (c :: w2).takeWhile (fun x => !isSpace x) = c :: w2 :=
      List.takeWhile_eq_self_iff.mpr (by simp_all)
    have hdrop : (c :: w2).dropWhile (fun x => !isSpace x) = [] :=
      List.dropWhile_eq_nil_iff.mpr (by simp_all)
    rw [htake, hdrop, splitWords_nil]

lemma splitWords_sound :
    ∀ (s : List Char), ∀ w ∈ splitWords s, w ≠ [] ∧ ∀ c ∈ w, isSpace c = false := by
  intro s
  induction s using splitWords.induct with
  | case1 =>
    rw [splitWords_nil]
    intro w hw
    exact absurd hw (List.not_mem_nil w)
  | case2 c rest h ih =>
    rw [splitWords_space c rest (by simpa using h)]
    exact ih
  | case3 c rest h ih =>
    have hc : isSpace c = false := by simpa using h
    rw [splitWords.eq_def]
    simp only [hc, Bool.false_eq_true, if_false]
    intro w hw
    rcases List.mem_cons.mp hw with hw | hw
    · subst hw
      constructor
      · simp [List.takeWhile_cons, hc]
      · intro d hd
        simpa using List.mem_takeWhile_imp hd
    · exact ih w hw

lemma splitWords_joinSep :
    ∀ (ws : List (List Char)),
      (∀ w ∈ ws, w ≠ [] ∧ ∀ c ∈ w, isSpace c = false) →
      splitWords (joinSep [' '] ws) = ws := by
  intro ws
  induction ws with
  | nil =>
    intro _
    exact splitWords_nil
  | cons w ws2 ih =>
    intro hws
    cases ws2 with
    | nil =>
      exact splitWords_single_word w (hws w (List.mem_cons_self w [])).1
        (hws w (List.mem_cons_self w [])).2
    | cons w2 ws3 =>
      have hj : joinSep [' '] (w :: w2 :: ws3) = w ++ ' ' :: joinSep [' '] (w2 :: ws3) := by
        rw [joinSep_cons [' '] w (w2 :: ws3) (by simp)]
        simp
      rw [hj, splitWords_word w _ (hws w (List.mem_cons_self w _)).1
        (hws w (List.mem_cons_self w _)).2]
      rw [ih (fun v hv => hws v (List.mem_cons_of_mem w hv))]

lemma joinSep_append (sep : List Char) :
    ∀ (u v : List (List Char)), u ≠ [] → v ≠ [] →
      joinSep sep (u ++ v) = joinSep sep u ++ sep ++ joinSep sep v := by
  intro u
  induction u with
  | nil => intro v hu _; exact absurd rfl hu
  | cons a u2 ih =>
    intro v _ hv
    cases u2 with
    | nil =>
      rw [List.cons_append, List.nil_append, joinSep_cons sep a v hv]
      rfl
    | cons b u3 =>
      have hne : (b :: u3) ++ v ≠ [] := by simp
      rw [List.cons_append, joinSep_cons sep a _ hne,
        joinSep_cons sep a (b :: u3) (by simp),
        ih v (by simp) hv]
      simp [List.append_assoc]

lemma flatten_ne_nil (lss : List (List (List Char))) (h1 : lss ≠ [])
    (h2 : ∀ l ∈ lss, l ≠ []) : lss.flatten ≠ [] := by
  cases lss with
  | nil => exact absurd rfl h1
  | cons ls lss2 =>
    have hls : ls ≠ [] := h2 ls (List.mem_cons_self ls lss2)
    cases ls with
    | nil => exact absurd rfl hls
    | cons w ws => simp

lemma joinSep_map_flatten :
    ∀ (lss : List (List (List Char))), (∀ ls ∈ lss, ls ≠ []) →
      joinSep [' '] (lss.map (joinSep [' '])) = joinSep [' '] lss.flatten := by
  intro lss
  induction lss with
  | nil => intro _; rfl
  | cons ls lss2 ih =>
    intro h
    cases lss2 with
    | nil => simp [joinSep]
    | cons ls2 lss3 =>
      have hflat : (ls2 :: lss3).flatten ≠ [] :=
        flatten_ne_nil (ls2 :: lss3) (by simp)
          (fun l hl => h l (List.mem_cons_of_mem ls hl))
      have hls : ls ≠ [] := h ls (List.mem_cons_self ls _)
      rw [List.map_cons, joinSep_cons [' '] _ _ (by simp),
        ih (fun l hl => h l (List.mem_cons_of_mem ls hl))]
      rw [show (ls :: ls2 :: lss3).flatten = ls ++ (ls2 :: lss3).flatten from rfl]
      rw [joinSep_append [' '] ls (ls2 :: lss3).flatten hls hflat]

/-- C6: for every wrap width W ≥ 1 and every text T, joining the wrapped
lines produced by the greedy word wrap with single spaces and re-splitting
yields exactly the word sequence of T: no word is dropped, duplicated or
reordered. -/
theorem c6_wrap_preserves_words (T : List Char) (W : Nat) (hW : 1 ≤ W) :
    splitWords (joinSep [' '] (wrap_lines T W)) = splitWords T := by
  have hsound := splitWords_sound T
  have hlines : ∀ L ∈ wrapLoop W (splitWords T) [] 0, L ≠ [] :=
    fun L hL => wrapLoop_line_ne_nil W (splitWords T) [] 0 L hL
  rw [wrap_lines, joinSep_map_flatten _ hlines, wrapLoop_flatten, List.nil_append]
  exact splitWords_joinSep (splitWords T) hsound

theorem c6_wrap_preserves_words_witness :
    1 ≤ 1 ∧
      splitWords (joinSep [' '] (wrap_lines ['a', ' ', 'b', 'b'] 1)) =
        splitWords ['a', ' ', 'b', 'b'] :=
  ⟨by decide, c6_wrap_preserves_words ['a', ' ', 'b', 'b'] 1 (by decide)⟩

/-- Arithmetic expressions over the time variable t, as inserted into the
enable= options of the generated filter graph. -/
inductive FExpr
  | const (v : ℚ)
  | between (lo hi : ℚ)
  | add (a b : FExpr)
  | sub (a b : FExpr)
deriving DecidableEq, Repr

/-- Evaluate an expression at time t.  In the external tool between(t, lo, hi)
is 1 when lo ≤ t ≤ hi and 0 otherwise, + and - are ordinary arithmetic, and
an enable= option treats a nonzero value as true. -/
def FExpr.evalAt (t : ℚ) : FExpr → ℚ
  | .const v => v
  | .between lo hi => if lo ≤ t ∧ t ≤ hi then 1 else 0
  | .add a b => a.evalAt t + b.evalAt t
  | .sub a b => a.evalAt t - b.evalAt t

/-- The two-decimal rounding the source applies when it formats a window
boundary with the .2f format specifier.  Ties are rounded half-up here
where the float formatting of the source rounds half-even; no statement in
this file depends on the tie-breaking rule. -/
def round2 (q : ℚ) : ℚ := (round (q * 100) : ℤ) / 100

/-- The "+".join of a list of subexpressions (the source only joins
nonempty lists). -/
def joinPlus : List FExpr → FExpr
  | [] => .const 0
  | [e] => e
  | e :: es => .add e (joinPlus es)

/-- The talking_enable expression built by FFmpegRenderer._build_filter_complex
(ffmpeg_renderer.py lines 259-268): one between(t, start, end) predicate per
speaking window of the role, with boundaries formatted to two decimals,
joined by +; the constant 0 when the role has no windows. -/
def talking_enable (windows : List (ℚ × ℚ)) : FExpr :=
  if windows = [] then .const 0
  else joinPlus (windows.map (fun w => FExpr.between (round2 w.1) (round2 w.2)))

/-- The neutral_enable expression 1-(talking_enable) from the same block. -/
def neutral_enable (windows : List (ℚ × ℚ)) : FExpr :=
  .sub (.const 1) (talking_enable windows)

lemma add_ne_zero_iff_of_nonneg (a b : ℚ) (ha : 0 ≤ a) (hb : 0 ≤ b) :
    a + b ≠ 0 ↔ a ≠ 0 ∨ b ≠ 0 := by
  constructor
  · intro h
    by_contra hc
    push_neg at hc
    exact h (by rw [hc.1, hc.2, add_zero])
  · rintro (h | h) heq
    · have : 0 < a := lt_of_le_of_ne ha (Ne.symm h)
      linarith
    · have : 0 < b := lt_of_le_of_ne hb (Ne.symm h)
      linarith

lemma joinPlus_between_eval (t : ℚ) :
    ∀ (ws : List (ℚ × ℚ)),
      0 ≤ (joinPlus (ws.map (fun w => FExpr.between (round2 w.1) (round2 w.2)))).evalAt t ∧
      ((joinPlus (ws.map (fun w => FExpr.between (round2 w.1) (round2 w.2)))).evalAt t ≠ 0 ↔
        ∃ w ∈ ws, round2 w.1 ≤ t ∧ t ≤ round2 w.2) := by
  intro ws
  induction ws with
  | nil => simp [joinPlus, FExpr.evalAt]
  | cons w ws2 ih =>
    cases ws2 with
    | nil =>
      constructor
      · by_cases h : round2 w.1 ≤ t ∧ t ≤ round2 w.2 <;>
          simp [joinPlus, FExpr.evalAt, h]
      · by_cases h : round2 w.1 ≤ t ∧ t ≤ round2 w.2 <;>
          simp [joinPlus, FExpr.evalAt, h]
    | cons w2 ws3 =>
      obtain ⟨ihnn, ihiff⟩ := ih
      have hband : (0 : ℚ) ≤ (FExpr.between (round2 w.1) (round2 w.2)).evalAt t := by
        by_cases h : round2 w.1 ≤ t ∧ t ≤ round2 w.2 <;> simp [FExpr.evalAt, h]
      have hjp : joinPlus
          (((w :: w2 :: ws3).map (fun w => FExpr.between (round2 w.1) (round2 w.2)))) =
          .add (FExpr.between (round2 w.1) (round2 w.2))
            (joinPlus ((w2 :: ws3).map (fun w => FExpr.between (round2 w.1) (round2 w.2)))) := by
        rfl
      rw [hjp]
      have hAiff : (FExpr.between (round2 w.1) (round2 w.2)).evalAt t ≠ 0 ↔
          (round2 w.1 ≤ t ∧ t ≤ round2 w.2) := by
        by_cases h : round2 w.1 ≤ t ∧ t ≤ round2 w.2 <;> simp [FExpr.evalAt, h]
      constructor
      · exact add_nonneg hband ihnn
      · rw [show (FExpr.add (FExpr.between (round2 w.1) (round2 w.2))
            (joinPlus ((w2 :: ws3).map
              (fun w => FExpr.between (round2 w.1) (round2 w.2))))).evalAt t =
            (FExpr.between (round2 w.1) (round2 w.2)).evalAt t +
            (joinPlus ((w2 :: ws3).map
              (fun w => FExpr.between (round2 w.1) (round2 w.2)))).evalAt t from rfl,
          add_ne_zero_iff_of_nonneg _ _ hband ihnn, hAiff, ihiff]
        constructor
        · rintro (h | ⟨v, hv, hvw⟩)
          · exact ⟨w, List.mem_cons_self w _, h⟩
          · exact ⟨v, List.mem_cons_of_mem w hv, hvw⟩
        · rintro ⟨v, hv, hvw⟩
          rcases List.mem_cons.mp hv with hveq | hvmem
          · subst hveq
            exact Or.inl hvw
          · exact Or.inr ⟨v, hvmem, hvw⟩

/-- C4, counterexample: for the single timing window (0, 1/3) the time
t = 1/3 lies inside the window, yet the generated speaking-condition
expression evaluates to 0 (false) there, because the window boundary is
formatted to two decimals (0.33) before it is inserted into the graph. -/
theorem c4_speaking_condition_counterexample :
    (talking_enable [((0 : ℚ), 1 / 3)]).evalAt (1 / 3) = 0 ∧
      (0 : ℚ) ≤ 1 / 3 ∧ (1 / 3 : ℚ) ≤ 1 / 3 := by
  refine ⟨?_, by norm_num, le_refl _⟩
  have h2 : round2 ((1 : ℚ) / 3) = 33 / 100 := by
    rw [round2]
    norm_num [round_eq]
  have h0 : round2 (0 : ℚ) = 0 := by
    rw [round2]
    norm_num
  rw [talking_enable, if_neg (by simp)]
  simp only [List.map_cons, List.map_nil, joinPlus]
  rw [h0, h2]
  simp only [FExpr.evalAt]
  norm_num

/-- C4, amended: for every list of timing windows and every time t, the
generated speaking-condition expression (an OR, via +, of one
between(t, start, end) predicate per window) evaluates to true (nonzero)
exactly when t lies in the union of the windows with their boundaries
rounded to two decimal places, the precision used when the expression is
emitted. -/
theorem c4_speaking_condition_rounded (windows : List (ℚ × ℚ)) (t : ℚ) :
    (talking_enable windows).evalAt t ≠ 0 ↔
      ∃ w ∈ windows, round2 w.1 ≤ t ∧ t ≤ round2 w.2 := by
  by_cases h : windows = []
  · subst h
    simp [talking_enable, FExpr.evalAt]
  · rw [talking_enable, if_neg h]
    exact (joinPlus_between_eval t windows).2

/-- The pose name string "talking". -/
def talkingStr : List Char := ['t', 'a', 'l', 'k', 'i', 'n', 'g']

/-- The pose name string "neutral". -/
def neutralStr : List Char := ['n', 'e', 'u', 't', 'r', 'a', 'l']

/-- The positions dict of _build_filter_complex (ffmpeg_renderer.py lines
228-232): questioner on the left, explainer on the right, with the local
char_height = 600. -/
def positions (width height : Nat) (role : List Char) : Int × Int :=
  if role = CharacterRole.questioner.value then (50, (height : Int) - 600 - 300)
  else ((width : Int) - 450, (height : Int) - 600 - 300)

/-- The speaking_windows dict of _build_filter_complex (ffmpeg_renderer.py
lines 234-238) for one role: the (start, end) pairs of that role's
windows, in order. -/
def speaking_windows (line_timings : List (ℚ × ℚ × List Char)) (role : List Char) :
    List (ℚ × ℚ) :=
  (line_timings.filter (fun w => decide (w.2.2 = role))).map (fun w => (w.1, w.2.1))

/-- One stage of the generated filter graph, with the data each appended
filter string carries. -/
inductive FilterStage
  | scale_bg (width height : Nat)
  | scale_char (input_idx : Nat) (role pose : List Char) (char_height : Nat)
  | overlay_char (role pose : List Char) (x y : Int) (enable : Option FExpr)
  | drawtext (line_index : Nat) (label body : List Char) (start_t end_t fade : ℚ)
  | copy_out
deriving DecidableEq, Repr

/-- Stages that scale or overlay a character image (and therefore reference
a character input index, directly or through its scaled stream label). -/
def isCharStage : FilterStage → Bool
  | .scale_char _ _ _ _ => true
  | .overlay_char _ _ _ _ _ => true
  | _ => false

/-- The per-role overlay block of _build_filter_complex (ffmpeg_renderer.py
lines 251-316): with both neutral and talking poses the two overlays are
gated by neutral_enable and talking_enable; with one pose it is shown
unconditionally; with neither named pose the first available pose is used,
and next(iter(...)) on an empty pose dict raises StopIteration, modelled
as none. -/
def overlay_stages_for_role (role : List Char) (poses : List (List Char × Nat))
    (pos : Int × Int) (windows : List (ℚ × ℚ)) : Option (List FilterStage) :=
  let talking := talking_enable windows
  let neutral := neutral_enable windows
  let has_talking := (poses.find? (fun pp => decide (pp.1 = talkingStr))).isSome
  let has_neutral := (poses.find? (fun pp => decide (pp.1 = neutralStr))).isSome
  if has_neutral && has_talking then
    some [FilterStage.overlay_char role neutralStr pos.1 pos.2 (some neutral),
          FilterStage.overlay_char role talkingStr pos.1 pos.2 (some talking)]
  else if has_talking then
    some [FilterStage.overlay_char role talkingStr pos.1 pos.2 none]
  else if has_neutral then
    some [FilterStage.overlay_char role neutralStr pos.1 pos.2 none]
  else
    match poses with
    | [] => none
    | (first_pose, _) :: _ =>
      some [FilterStage.overlay_char role first_pose pos.1 pos.2 none]

/-- The loop for role in [questioner, explainer] of _build_filter_complex
(ffmpeg_renderer.py line 251): roles absent from character_inputs are
skipped, present roles contribute their overlay stages in order. -/
def rolesLoop (width height : Nat)
    (character_inputs : List (List Char × List (List Char × Nat)))
    (line_timings : List (ℚ × ℚ × List Char)) :
    List (List Char) → Option (List FilterStage)
  | [] => some []
  | role :: rest =>
    match character_inputs.find? (fun rp => decide (rp.1 = role)) with
    | none => rolesLoop width height character_inputs line_timings rest
    | some rp =>
      match overlay_stages_for_role role rp.2 (positions width height role)
          (speaking_windows line_timings role) with
      | none => none
      | some s =>
        (rolesLoop width height character_inputs line_timings rest).map
          (fun s2 => s ++ s2)

/-- The per-line text overlay stages of _build_filter_complex
(ffmpeg_renderer.py lines 318-353): for each (line, timing) pair, one
drawtext stage carrying the escaped speaker label, the escaped wrapped
body text (wrap width 40), the window bounds formatted to two decimals and
the 0.3 second fade-in. -/
def text_stages (script : DialogueScript) (line_timings : List (ℚ × ℚ × List Char)) :
    List FilterStage :=
  ((script.lines.zip line_timings).enum).map
    (fun p =>
      FilterStage.drawtext p.1
        (escape_text (p.2.1.speaker_name ++ [':']))
        (escape_text (wrap_text p.2.1.line 40))
        (round2 p.2.2.1) (round2 p.2.2.2.1) (3 / 10))

/-- FFmpegRenderer._build_filter_complex (ffmpeg_renderer.py lines 205-358)
as the list of its stages: the scaled and padded background, one scale
stage per registered character pose input, the per-role pose overlays, the
per-line text overlays, and the final copy to the outv sink label. -/
def build_filter_complex (width height : Nat) (script : DialogueScript)
    (character_inputs : List (List Char × List (List Char × Nat)))
    (line_timings : List (ℚ × ℚ × List Char)) : Option (List FilterStage) :=
  let scale_stages := (character_inputs.map
    (fun rp => rp.2.map (fun pp => FilterStage.scale_char pp.2 rp.1 pp.1 600))).flatten
  match rolesLoop width height character_inputs line_timings
      [CharacterRole.questioner.value, CharacterRole.explainer.value] with
  | none => none
  | some overlays =>
    some (FilterStage.scale_bg width height ::
      (scale_stages ++ overlays ++ text_stages script line_timings ++
        [FilterStage.copy_out]))

/-- The inner pose loop of _build_ffmpeg_command (ffmpeg_renderer.py lines
160-164): each pose whose file exists is declared as a looped input and
registered at the next input index. -/
def poseInputsLoop (pexists : List Char → Bool) :
    List (List Char × List Char) → Nat →
      List (List Char × Nat) × List (List Char) × Nat
  | [], input_index => ([], [], input_index)
  | (pose, path) :: rest, input_index =>
    if pexists path then
      let r := poseInputsLoop pexists rest (input_index + 1)
      ((pose, input_index) :: r.1, path :: r.2.1, r.2.2)
    else poseInputsLoop pexists rest input_index

/-- The outer character loop of _build_ffmpeg_command (ffmpeg_renderer.py
lines 155-164), starting at input index 2 (0 is the background, 1 the
voiceover): every role of character_assets gets an entry, even when none
of its pose files exists. -/
def charInputsLoop (pexists : List Char → Bool) :
    List (List Char × List (List Char × List Char)) → Nat →
      List (List Char × List (List Char × Nat)) × List (List Char) × Nat
  | [], input_index => ([], [], input_index)
  | (role, poses) :: rest, input_index =>
    let r1 := poseInputsLoop pexists poses input_index
    let r2 := charInputsLoop pexists rest r1.2.2
    ((role, r1.1) :: r2.1, r1.2.1 ++ r2.2.1, r2.2.2)

/-- The structured content of the argument list assembled by
_build_ffmpeg_command: the ordered media inputs (each declared with -i),
the character-input index map shared with the filter graph, the optional
music input index, and the filter graph.  The fixed codec, mapping and
quality flags around them carry no further structure. -/
structure FFmpegCommand where
  media_inputs : List (List Char)
  character_inputs : List (List Char × List (List Char × Nat))
  music_input : Option Nat
  filter_complex : Option (List FilterStage)
  output_path : List Char

/-- FFmpegRenderer._build_ffmpeg_command (ffmpeg_renderer.py lines 134-203):
background image input, voiceover input, one looped input per existing
character pose file, the optional music input, and the filter complex
built from the same character-input index map. -/
def build_ffmpeg_command (width height : Nat) (pexists : List Char → Bool)
    (script : DialogueScript) (voiceover_path background_path : List Char)
    (character_assets : List (List Char × List (List Char × List Char)))
    (output_path : List Char) (music_path : Option (List Char))
    (line_timings : List (ℚ × ℚ × List Char)) : FFmpegCommand :=
  let r := charInputsLoop pexists character_assets 2
  { media_inputs := background_path :: voiceover_path ::
      (r.2.1 ++ (match music_path with | some m => [m] | none => []))
    character_inputs := r.1
    music_input := match music_path with | some _ => some r.2.2 | none => none
    filter_complex := build_filter_complex width height script r.1 line_timings
    output_path := output_path }

/-- C7: when the character-assets mapping is empty, the assembled command
declares exactly two media inputs, background then voiceover, plus the
music input exactly when a music path is supplied, and the filter graph is
built with no stage scaling or overlaying a character image, hence no
stage referencing a character input index. -/
theorem c7_no_character_inputs (width height : Nat) (pexists : List Char → Bool)
    (script : DialogueScript) (vo bg out : List Char)
    (music : Option (List Char)) (line_timings : List (ℚ × ℚ × List Char)) :
    (build_ffmpeg_command width height pexists script vo bg [] out music
        line_timings).media_inputs =
      bg :: vo :: (match music with | some m => [m] | none => []) ∧
    ((build_ffmpeg_command width height pexists script vo bg [] out music
        line_timings).music_input.isSome ↔ music.isSome) ∧
    ∃ stages,
      (build_ffmpeg_command width height pexists script vo bg [] out music
        line_timings).filter_complex = some stages ∧
      ∀ st ∈ stages, isCharStage st = false := by
  refine ⟨?_, ?_, ?_⟩
  · cases music <;> rfl
  · cases music <;> simp [build_ffmpeg_command, charInputsLoop]
  · refine ⟨FilterStage.scale_bg width height ::
      (text_stages script line_timings ++ [FilterStage.copy_out]), ?_, ?_⟩
    · show build_filter_complex width height script
        (charInputsLoop pexists [] 2).1 line_timings = _
      simp only [charInputsLoop]
      rw [build_filter_complex]
      simp [rolesLoop, List.find?, Option.map]
    · intro st hst
      rcases List.mem_cons.mp hst with h | h
      · subst h
        rfl
      · rcases List.mem_append.mp h with h | h
        · simp only [text_stages] at h
          obtain ⟨p, _, hp⟩ := List.mem_map.mp h
          rw [← hp]
          rfl
        · have : st = FilterStage.copy_out := by simpa using h
          subst this
          rfl

/-- VideoProjectStatus enum from video_pipeline/models.py. -/
inductive VideoProjectStatus
  | draft
  | approved
  | audio_ready
  | rendering
  | completed
  | failed
deriving DecidableEq, Repr

/-- The VideoProject ORM row (database/models.py lines 85-130).  Timestamps
are modelled as natural numbers, the JSON script payload as an opaque
optional string. -/
structure VideoProject where
  id : Nat
  tenant_id : Option Nat
  title : List Char
  topic : List Char
  context_style : ContextStyle
  document_id : Option Nat
  questioner_id : Nat
  explainer_id : Nat
  script_json : Option (List Char)
  takeaway : Option (List Char)
  background_music_id : Option Nat
  voiceover_path : Option (List Char)
  output_path : Option (List Char)
  duration_seconds : Option ℚ
  status : VideoProjectStatus
  error_message : Option (List Char)
  reviewed_at : Option Nat
  reviewed_by : Option (List Char)
  created_at : Nat
  updated_at : Nat
deriving DecidableEq

/-- Store a row under an id (the committed state after a session commit). -/
def dbSet (db : Nat → Option VideoProject) (i : Nat) (p : VideoProject) :
    Nat → Option VideoProject :=
  fun j => if j = i then some p else db j

/-- The detail string of the 404 raised by the routers. -/
def notFoundMsg : List Char :=
  ['P', 'r', 'o', 'j', 'e', 'c', 't', ' ', 'n', 'o', 't', ' ', 'f', 'o', 'u', 'n', 'd']

/-- The detail string of the 400 raised by render_project
(video_projects.py lines 684-688). -/
def renderStatusMsg : List Char :=
  ['P', 'r', 'o', 'j', 'e', 'c', 't', ' ', 'm', 'u', 's', 't', ' ', 'b', 'e', ' ',
   'i', 'n', ' ', 'A', 'U', 'D', 'I', 'O', '_', 'R', 'E', 'A', 'D', 'Y', ' ',
   's', 't', 'a', 't', 'u', 's', ' ', 't', 'o', ' ', 'r', 'e', 'n', 'd', 'e', 'r']

/-- The phrase the specification requires inside the 400 detail. -/
def mustBeMsg : List Char :=
  ['m', 'u', 's', 't', ' ', 'b', 'e', ' ', 'i', 'n', ' ', 'A', 'U', 'D', 'I', 'O',
   '_', 'R', 'E', 'A', 'D', 'Y', ' ', 's', 't', 'a', 't', 'u', 's']

/-- The Rejected-colon-space text prepended to the notes by reject_project
(video_projects.py line 624). -/
def rejectedTag : List Char :=
  ['R', 'e', 'j', 'e', 'c', 't', 'e', 'd', ':', ' ']

/-- VideoProjectRepository.update_status (video_project.py lines 85-102):
fetch by id; when found, overwrite status, error_message (with the
argument, whose Python default is None) and updated_at, commit, and return
the refreshed row.  The pair is (resulting store, returned row). -/
def update_status (db : Nat → Option VideoProject) (project_id : Nat)
    (status : VideoProjectStatus) (error_message : Option (List Char)) (now : Nat) :
    (Nat → Option VideoProject) × Option VideoProject :=
  match db project_id with
  | none => (db, none)
  | some project =>
    let p2 := { project with
      status := status
      error_message := error_message
      updated_at := now }
    (dbSet db project_id p2, some p2)

/-- VideoProjectRepository.approve_project (video_project.py lines 123-140):
None unless the project exists and is in DRAFT; otherwise set APPROVED with
review metadata and commit. -/
def approve_project (db : Nat → Option VideoProject) (project_id : Nat)
    (reviewed_by : List Char) (now : Nat) :
    (Nat → Option VideoProject) × Option VideoProject :=
  match db project_id with
  | none => (db, none)
  | some project =>
    if project.status ≠ VideoProjectStatus.draft then (db, none)
    else
      let p2 := { project with
        status := VideoProjectStatus.approved
        reviewed_at := some now
        reviewed_by := some reviewed_by
        updated_at := now }
      (dbSet db project_id p2, some p2)

/-- The outcome of a router call: a response body or an HTTPException. -/
inductive ApiResult (α : Type)
  | ok (value : α)
  | httpError (status_code : Nat) (detail : List Char)
deriving DecidableEq

/-- The render_project router action (video_projects.py lines 670-699):
404 when the project is missing, 400 with the AUDIO_READY detail when the
status is not AUDIO_READY (leaving the store untouched), otherwise the
status is set to RENDERING and the updated project returned (the
background render task itself is outside this model). -/
def render_project (db : Nat → Option VideoProject) (project_id : Nat) (now : Nat) :
    (Nat → Option VideoProject) × ApiResult VideoProject :=
  match db project_id with
  | none => (db, .httpError 404 notFoundMsg)
  | some project =>
    if project.status ≠ VideoProjectStatus.audio_ready then
      (db, .httpError 400 renderStatusMsg)
    else
      let r := update_status db project_id VideoProjectStatus.rendering none now
      (r.1,
        match r.2 with
        | some p2 => .ok p2
        | none => .httpError 404 notFoundMsg)

/-- The reject_project router action (video_projects.py lines 613-630):
update_status to DRAFT with error_message Rejected-colon-space plus the
notes; 404 when the project does not exist. -/
def reject_project (db : Nat → Option VideoProject) (project_id : Nat)
    (notes : List Char) (now : Nat) :
    (Nat → Option VideoProject) × ApiResult VideoProject :=
  let r := update_status db project_id VideoProjectStatus.draft
    (some (rejectedTag ++ notes)) now
  match r.2 with
  | none => (r.1, .httpError 404 notFoundMsg)
  | some p => (r.1, .ok p)

/-- C8: for an existing project, render is rejected with a 400 carrying the
must-be-in-AUDIO_READY detail and an unchanged store whenever the status is
not AUDIO_READY, and succeeds when it is; approve succeeds exactly when the
status is DRAFT; reject always returns the project to DRAFT with an
error_message equal to the Rejected tag followed by the supplied notes
(hence containing the notes). -/
theorem c8_workflow_guards (db : Nat → Option VideoProject) (project_id : Nat)
    (p : VideoProject) (notes reviewed_by : List Char) (now : Nat)
    (hdb : db project_id = some p) :
    (p.status ≠ VideoProjectStatus.audio_ready →
      render_project db project_id now = (db, .httpError 400 renderStatusMsg) ∧
      mustBeMsg <:+: renderStatusMsg) ∧
    (p.status = VideoProjectStatus.audio_ready →
      ∃ p2, (render_project db project_id now).2 = .ok p2) ∧
    ((approve_project db project_id reviewed_by now).2.isSome ↔
      p.status = VideoProjectStatus.draft) ∧
    (∃ p2, (reject_project db project_id notes now).2 = .ok p2 ∧
      p2.status = VideoProjectStatus.draft ∧
      p2.error_message = some (rejectedTag ++ notes) ∧
      notes <:+ rejectedTag ++ notes) := by
  refine ⟨?_, ?_, ?_, ?_⟩
  · intro hne
    constructor
    · simp [render_project, hdb, hne]
    · exact ⟨['P', 'r', 'o', 'j', 'e', 'c', 't', ' '],
        [' ', 't', 'o', ' ', 'r', 'e', 'n', 'd', 'e', 'r'], by decide⟩
  · intro heq
    refine ⟨{ p with
      status := VideoProjectStatus.rendering
      error_message := none
      updated_at := now }, ?_⟩
    simp [render_project, hdb, heq, update_status]
  · by_cases hs : p.status = VideoProjectStatus.draft
    · simp [approve_project, hdb, hs]
    · simp [approve_project, hdb, hs]
  · refine ⟨{ p with
      status := VideoProjectStatus.draft
      error_message := some (rejectedTag ++ notes)
      updated_at := now },
      ?_, rfl, rfl, ⟨rejectedTag, rfl⟩⟩
    simp [reject_project, update_status, hdb]

/-- A concrete project row in DRAFT used to instantiate the guard theorems. -/
def sampleProject : VideoProject :=
  { id := 1
    tenant_id := none
    title := ['t']
    topic := ['x']
    context_style := .tech
    document_id := none
    questioner_id := 1
    explainer_id := 2
    script_json := none
    takeaway := none
    background_music_id := none
    voiceover_path := none
    output_path := none
    duration_seconds := none
    status := .draft
    error_message := none
    reviewed_at := none
    reviewed_by := none
    created_at := 0
    updated_at := 0 }

/-- A one-project store holding sampleProject under id 1. -/
def sampleDb : Nat → Option VideoProject :=
  fun i => if i = 1 then some sampleProject else none

theorem c8_workflow_guards_witness :
    (render_project sampleDb 1 5 = (sampleDb, .httpError 400 renderStatusMsg) ∧
      mustBeMsg <:+: renderStatusMsg) ∧
    (∃ p2, (reject_project sampleDb 1 ['b', 'a', 'd'] 5).2 = .ok p2 ∧
      p2.status = VideoProjectStatus.draft ∧
      p2.error_message = some (rejectedTag ++ ['b', 'a', 'd']) ∧
      ['b', 'a', 'd'] <:+ rejectedTag ++ ['b', 'a', 'd']) :=
  ⟨(c8_workflow_guards sampleDb 1 sampleProject ['b', 'a', 'd'] ['r'] 5 rfl).1
      (by decide),
    (c8_workflow_guards sampleDb 1 sampleProject ['b', 'a', 'd'] ['r'] 5 rfl).2.2.2⟩

/-- C10: update_status on an existing project stores and returns the row
with exactly the given status, exactly the given error_message (None when
the caller omits it, clearing any previous message), updated_at set to the
commit time, and every other field unchanged; no transition guard inspects
the previous status, and no other id of the store is touched. -/
theorem c10_update_status_frame (db : Nat → Option VideoProject) (project_id : Nat)
    (status : VideoProjectStatus) (msg : Option (List Char)) (now : Nat)
    (p : VideoProject) (hdb : db project_id = some p) :
    ∃ p2, update_status db project_id status msg now = (dbSet db project_id p2, some p2) ∧
      p2.status = status ∧ p2.error_message = msg ∧ p2.updated_at = now ∧
      p2.id = p.id ∧ p2.tenant_id = p.tenant_id ∧ p2.title = p.title ∧
      p2.topic = p.topic ∧ p2.context_style = p.context_style ∧
      p2.document_id = p.document_id ∧ p2.questioner_id = p.questioner_id ∧
      p2.explainer_id = p.explainer_id ∧ p2.script_json = p.script_json ∧
      p2.takeaway = p.takeaway ∧ p2.background_music_id = p.background_music_id ∧
      p2.voiceover_path = p.voiceover_path ∧ p2.output_path = p.output_path ∧
      p2.duration_seconds = p.duration_seconds ∧ p2.reviewed_at = p.reviewed_at ∧
      p2.reviewed_by = p.reviewed_by ∧ p2.created_at = p.created_at ∧
      dbSet db project_id p2 project_id = some p2 ∧
      ∀ q, q ≠ project_id → dbSet db project_id p2 q = db q := by
  refine ⟨{ p with status := status, error_message := msg, updated_at := now },
    ?_, rfl, rfl, rfl, rfl, rfl, rfl, rfl, rfl, rfl, rfl, rfl, rfl, rfl, rfl,
    rfl, rfl, rfl, rfl, rfl, rfl, ?_, ?_⟩
  · simp [update_status, hdb]
  · simp [dbSet]
  · intro q hq
    simp [dbSet, hq]

theorem c10_update_status_frame_witness :
    ∃ p2, update_status sampleDb 1 VideoProjectStatus.failed (some ['e']) 7 =
        (dbSet sampleDb 1 p2, some p2) ∧
      p2.status = VideoProjectStatus.failed ∧ p2.error_message = some ['e'] ∧
      p2.updated_at = 7 ∧
      p2.id = sampleProject.id ∧ p2.tenant_id = sampleProject.tenant_id ∧
      p2.title = sampleProject.title ∧
      p2.topic = sampleProject.topic ∧ p2.context_style = sampleProject.context_style ∧
      p2.document_id = sampleProject.document_id ∧
      p2.questioner_id = sampleProject.questioner_id ∧
      p2.explainer_id = sampleProject.explainer_id ∧
      p2.script_json = sampleProject.script_json ∧
      p2.takeaway = sampleProject.takeaway ∧
      p2.background_music_id = sampleProject.background_music_id ∧
      p2.voiceover_path = sampleProject.voiceover_path ∧
      p2.output_path = sampleProject.output_path ∧
      p2.duration_seconds = sampleProject.duration_seconds ∧
      p2.reviewed_at = sampleProject.reviewed_at ∧
      p2.reviewed_by = sampleProject.reviewed_by ∧
      p2.created_at = sampleProject.created_at ∧
      dbSet sampleDb 1 p2 1 = some p2 ∧
      ∀ q, q ≠ 1 → dbSet sampleDb 1 p2 q = sampleDb q :=
  c10_update_status_frame sampleDb 1 VideoProjectStatus.failed (some ['e']) 7
    sampleProject rfl

/-- The detail of the ValueError raised by AssetManager.delete_asset
(asset_manager.py line 152). -/
def deleteOutsideMsg : List Char :=
  ['C', 'a', 'n', 'n', 'o', 't', ' ', 'd', 'e', 'l', 'e', 't', 'e', ' ',
   'f', 'i', 'l', 'e', 's', ' ', 'o', 'u', 't', 's', 'i', 'd', 'e', ' ',
   'a', 's', 's', 'e', 't', 's', ' ', 'd', 'i', 'r', 'e', 'c', 't', 'o', 'r', 'y']

/-- The file system as the renderer sees it: an existence predicate and the
resolution of a path to its canonical absolute form. -/
structure FileSystem where
  fexists : List Char → Bool
  resolve : List Char → List Char

/-- The effect of Path.unlink on the file system. -/
def unlinkFs (fs : FileSystem) (p : List Char) : FileSystem :=
  { fs with fexists := fun q => if q = p then false else fs.fexists q }

/-- AssetManager.delete_asset (asset_manager.py lines 138-156): False when
the path does not exist; ValueError when the resolved path does not start
with the resolved assets directory (the security check, a string prefix
test in the source); otherwise the file is unlinked and True returned.
The pair is (result or raised error, resulting file system). -/
def delete_asset (fs : FileSystem) (assets_dir file_path : List Char) :
    Except PyError Bool × FileSystem :=
  if fs.fexists file_path = false then (.ok false, fs)
  else if (fs.resolve assets_dir).isPrefixOf (fs.resolve file_path) = false then
    (.error (.valueError deleteOutsideMsg), fs)
  else (.ok true, unlinkFs fs file_path)

/-- C9: delete_asset returns False and touches nothing when the path does
not exist; raises ValueError and deletes nothing when the existing path
resolves outside the assets directory (the string prefix test of the
source); and only for an existing path inside the assets directory unlinks
exactly that path and returns True. -/
theorem c9_delete_asset_guard (fs : FileSystem) (assets_dir file_path : List Char) :
    (fs.fexists file_path = false →
      delete_asset fs assets_dir file_path = (.ok false, fs)) ∧
    (fs.fexists file_path = true →
      (fs.resolve assets_dir).isPrefixOf (fs.resolve file_path) = false →
      delete_asset fs assets_dir file_path =
        (.error (.valueError deleteOutsideMsg), fs)) ∧
    (fs.fexists file_path = true →
      (fs.resolve assets_dir).isPrefixOf (fs.resolve file_path) = true →
      delete_asset fs assets_dir file_path = (.ok true, unlinkFs fs file_path) ∧
      (unlinkFs fs file_path).fexists file_path = false ∧
      ∀ q, q ≠ file_path → (unlinkFs fs file_path).fexists q = fs.fexists q) := by
  refine ⟨?_, ?_, ?_⟩
  · intro h
    simp [delete_asset, h]
  · intro h1 h2
    simp [delete_asset, h1, h2]
  · intro h1 h2
    refine ⟨by simp [delete_asset, h1, h2], by simp [unlinkFs], ?_⟩
    intro q hq
    simp [unlinkFs, hq]

/-- A two-file file system with identity resolution, used to instantiate
the delete_asset theorem. -/
def sampleFs : FileSystem :=
  { fexists := fun q => q = ['a', '/', 'f'] || q = ['a', '/', 'g']
    resolve := fun q => q }

theorem c9_delete_asset_guard_witness :
    delete_asset sampleFs ['a'] ['a', '/', 'f'] =
        (.ok true, unlinkFs sampleFs ['a', '/', 'f']) ∧
      (unlinkFs sampleFs ['a', '/', 'f']).fexists ['a', '/', 'f'] = false ∧
      ∀ q, q ≠ ['a', '/', 'f'] →
        (unlinkFs sampleFs ['a', '/', 'f']).fexists q = sampleFs.fexists q :=
  (c9_delete_asset_guard sampleFs ['a'] ['a', '/', 'f']).2.2 (by decide) (by decide)
